import Mathlib

/-!
Verification of the CSV ingestion and normalization pipeline of the
risk_review repository (src/utils/processor.ts, src/components/RiskAnalyzer.tsx).

Shallow embedding conventions:
* A parsed CSV file (the output of Papa.parse with header: true) is a `RawTable`:
  the header list plus one association list per data row.  Row access
  `row[key]` is `jsGet`; JavaScript truthiness of the resulting
  `string | undefined` is `optTruthy` (undefined and the empty string are falsy).
* A raw byte buffer is observed by the code only through its two decodes
  (TextDecoder gbk / utf-8, each followed by Papa.parse), so a buffer is
  embedded as a `FileBuffer` holding both decoded tables.
* JavaScript numbers produced by parseFloat are embedded exactly: `none`
  stands for NaN, `JSNum.fin q` for a finite value (exact rational value of
  the parsed decimal literal; IEEE rounding is ignored, which does not affect
  NaN-ness, sign, or the comparisons used here), `JSNum.inf` for ±Infinity.
* Error values carry the data the thrown Error message is built from
  (for the risk pipeline, the header list interpolated into the message).
-/

/-- The JavaScript whitespace class: the characters removed by
`String.prototype.trim` and matched by the regex class `\s`. -/
def jsWS (c : Char) : Bool :=
  c == '\t' || c == '\n' || c == '\r' || c == ' ' ||
  c == '\x0b' || c == '\x0c' ||
  c.toNat == 0xA0 || c.toNat == 0x1680 ||
  (0x2000 ≤ c.toNat && c.toNat ≤ 0x200A) ||
  c.toNat == 0x2028 || c.toNat == 0x2029 || c.toNat == 0x202F ||
  c.toNat == 0x205F || c.toNat == 0x3000 || c.toNat == 0xFEFF

/-- The character class `[\t\n\r]` collapsed by the normalizer. -/
def isTNR (c : Char) : Bool :=
  c == '\t' || c == '\n' || c == '\r'

/-- `String.prototype.trim` on a character list: drop whitespace from both ends. -/
def jsTrim (l : List Char) : List Char :=
  List.rdropWhile jsWS (l.dropWhile jsWS)

/-- `s.trim()` on strings. -/
def jsTrimStr (s : String) : String :=
  ⟨jsTrim s.data⟩

/-- The literal prefix removed by the normalizer (regex `^用户评价文本[:：]?\s*`). -/
def pfxChars : List Char :=
  "用户评价文本".data

/-- One application of `replace(/^用户评价文本[:：]?\s*/, '')`: if the string
starts with the literal prefix, drop it, then one optional ASCII or
full-width colon, then any run of whitespace. -/
def stripPfx (l : List Char) : List Char :=
  if pfxChars.isPrefixOf l then
    let r := l.drop pfxChars.length
    let r2 :=
      match r with
      | [] => ([] : List Char)
      | c :: t => if c == ':' || c == '：' then t else c :: t
    r2.dropWhile jsWS
  else l

/-- Worker for `replace(/[\t\n\r]+/g, ' ')`: `inRun` records whether the
previous character was part of a tab/newline run already replaced. -/
def collapseAux (inRun : Bool) : List Char → List Char
  | [] => []
  | c :: t =>
    if isTNR c then
      if inRun then collapseAux true t else ' ' :: collapseAux true t
    else c :: collapseAux false t

/-- `replace(/[\t\n\r]+/g, ' ')`: every maximal run of tab, newline or
carriage-return characters becomes a single space. -/
def collapseWs (l : List Char) : List Char :=
  collapseAux false l

/-- `normalizeContent` from src/utils/processor.ts: guard on the falsy empty
string, trim, strip the prefix once, collapse whitespace runs, trim again. -/
def normalizeContent (text : String) : String :=
  if text = "" then ""
  else ⟨jsTrim (collapseWs (stripPfx (jsTrim text.data)))⟩

/-- Containment of `pat` as a contiguous run of `l`. -/
def isInfixB (pat : List Char) : List Char → Bool
  | [] => pat.isEmpty
  | c :: t => pat.isPrefixOf (c :: t) || isInfixB pat t

/-- `String.prototype.includes` (substring containment). -/
def jsIncludes (s sub : String) : Bool :=
  isInfixB sub.data s.data

/-- A parsed CSV row: `Record<string, string>` as an association list. -/
abbrev Row := List (String × String)

/-- `row[key]` on a parsed row: `some` value or `none` for undefined. -/
def jsGet (row : Row) (k : String) : Option String :=
  (row.find? (fun p => p.1 == k)).map (fun p => p.2)

/-- `row[key]` collapsed to a string, reading undefined as the empty string
(both are falsy, and the code only branches on truthiness before use). -/
def jsGetD (row : Row) (k : String) : String :=
  (jsGet row k).getD ""

/-- JavaScript truthiness of a `string | undefined` value. -/
def optTruthy : Option String → Bool
  | none => false
  | some s => !(s == "")

/-- Output of Papa.parse with `header: true`: `meta.fields` and `data`. -/
structure RawTable where
  fields : List String
  rows : List Row
deriving DecidableEq

/-- A raw byte buffer, observed through its GBK decode and its UTF-8 decode
(each already run through the CSV parser). -/
structure FileBuffer where
  gbk : RawTable
  utf8 : RawTable
deriving DecidableEq

/-- `ProcessedRow` from src/types.ts. -/
structure ProcessedRow where
  strategy : String
  content : String
deriving DecidableEq

/-- `ProcessingStats` from src/types.ts. -/
structure ProcessingStats where
  totalRows : Nat
  validRows : Nat
  skippedRows : Nat
deriving DecidableEq

/-- A non-NaN JavaScript number: a finite exact value or a signed infinity
(`inf true` is -Infinity). -/
inductive JSNum where
  | fin : ℚ → JSNum
  | inf : Bool → JSNum
deriving DecidableEq

/-- `RiskAnalysisRow` from src/types.ts, plus the `nid` field attached by the
source-mapping join in RiskAnalyzer.tsx (absent until a join sets it). -/
structure RiskAnalysisRow where
  id : Nat
  content : String
  riskScore : JSNum
  riskType : String
  nid : Option String
  originalRow : Row
deriving DecidableEq

/-- The error thrown by `processCSV` when no content column is found. -/
inductive ProcError where
  | contentColumnNotFound
deriving DecidableEq

/-- The error thrown by `processRiskCSV`; carries the header list that the
thrown message enumerates ("Found columns: ..."). -/
inductive RiskError where
  | scoreColumnNotFound (found : List String)
deriving DecidableEq

deriving instance DecidableEq for Except

/-- The content-column predicate of `processCSV`:
`f.trim() === '内容' || f.trim() === 'content'`. -/
def contentHeaderPred (f : String) : Bool :=
  jsTrimStr f == "内容" || jsTrimStr f == "content"

/-- `fields.find(...)` for the content column of `processCSV`. -/
def findContentKey (fields : List String) : Option String :=
  fields.find? contentHeaderPred

/-- Result of the row loop of `processCSV`: emitted rows plus the
`validCount` / `skippedCount` counters. -/
structure ExtractResult where
  data : List ProcessedRow
  valid : Nat
  skipped : Nat
deriving DecidableEq

/-- The `rows.forEach` loop of `processCSV`: truthy content cell is
normalized; non-empty, unseen normalized content is emitted with the constant
strategy tag and marked seen; everything else increments the skipped counter. -/
def extractRows (key : String) (seen : List String) : List Row → ExtractResult
  | [] => ⟨[], 0, 0⟩
  | row :: rest =>
    let cv := jsGet row key
    if optTruthy cv then
      let clean := normalizeContent (cv.getD "")
      if !(clean == "") && !(seen.contains clean) then
        let res := extractRows key (clean :: seen) rest
        ⟨⟨"service_safe_cate_v2", clean⟩ :: res.data, res.valid + 1, res.skipped⟩
      else
        let res := extractRows key seen rest
        ⟨res.data, res.valid, res.skipped + 1⟩
    else
      let res := extractRows key seen rest
      ⟨res.data, res.valid, res.skipped + 1⟩

/-- The table-level core of `processCSV`: locate the content column (else
reject), run the row loop, report the statistics. -/
def processCSVTable (t : RawTable) :
    Except ProcError (List ProcessedRow × ProcessingStats) :=
  match findContentKey t.fields with
  | none => .error .contentColumnNotFound
  | some key =>
    let res := extractRows key [] t.rows
    .ok (res.data, ⟨t.rows.length, res.valid, res.skipped⟩)

/-- `processCSV` from src/utils/processor.ts: the buffer is decoded with the
GBK decoder only ("Critical: Decode as GBK...") — the UTF-8 decode of the
buffer is never consulted. -/
def processCSV (b : FileBuffer) :
    Except ProcError (List ProcessedRow × ProcessingStats) :=
  processCSVTable b.gbk

/-- Decimal digit string to a natural number (most significant first). -/
def digitsToNat (l : List Char) : Nat :=
  l.foldl (fun acc c => acc * 10 + (c.toNat - 48)) 0

/-- The optional exponent part `e/E SignedInteger` of a decimal literal; an
ill-formed exponent is not consumed (contributing a factor of 10^0). -/
def parseExp (l : List Char) : ℤ :=
  match l with
  | [] => 0
  | c :: t =>
    if c == 'e' || c == 'E' then
      let st :=
        match t with
        | [] => (false, ([] : List Char))
        | d :: u => if d == '-' then (true, u) else if d == '+' then (false, t.drop 1) else (false, t)
      let ed := st.2.takeWhile Char.isDigit
      if ed.isEmpty then 0
      else if st.1 then -(digitsToNat ed : ℤ) else (digitsToNat ed : ℤ)
    else 0

/-- The characters of the literal `Infinity`. -/
def infChars : List Char :=
  "Infinity".data

/-- JavaScript `parseFloat`: skip leading whitespace, read an optional sign,
then the longest prefix that is a `StrDecimalLiteral` (`Infinity`, or digits
with optional fraction and well-formed exponent); `none` is NaN. -/
def jsParseFloat (s : String) : Option JSNum :=
  let l := s.data.dropWhile jsWS
  let sg :=
    match l with
    | [] => (false, ([] : List Char))
    | c :: t => if c == '-' then (true, t) else if c == '+' then (false, t) else (false, l)
  let neg := sg.1
  let l1 := sg.2
  if infChars.isPrefixOf l1 then some (.inf neg)
  else
    let ip := l1.takeWhile Char.isDigit
    let r1 := l1.dropWhile Char.isDigit
    let fp :=
      match r1 with
      | c :: t => if c == '.' then t.takeWhile Char.isDigit else []
      | [] => []
    let r2 :=
      match r1 with
      | c :: t => if c == '.' then t.dropWhile Char.isDigit else r1
      | [] => []
    if ip.isEmpty && fp.isEmpty then none
    else
      let n : ℤ := (digitsToNat (ip ++ fp) : ℤ)
      let sn : ℤ := if neg then -n else n
      let e : ℤ := parseExp r2 - (fp.length : ℤ)
      let v : ℚ :=
        if 0 ≤ e then mkRat (sn * ((10 ^ e.toNat : ℕ) : ℤ)) 1
        else mkRat sn (10 ^ (-e).toNat)
      some (.fin v)

/-- The score-column predicate of `processRiskCSV` (`isColumnFound`):
substring containment of any of the three fragments. -/
def isColumnFound (f : String) : Bool :=
  jsIncludes f "风险得分" || jsIncludes f "文心安全算子" || jsIncludes f "Risk Score"

/-- `fields.find(isColumnFound)`. -/
def findScoreKey (fields : List String) : Option String :=
  fields.find? isColumnFound

/-- The `findColumn` helper of `processRiskCSV`: first header whose trimmed
text contains the target. -/
def findColumn (fields : List String) (target : String) : Option String :=
  fields.find? (fun f => jsIncludes (jsTrimStr f) target)

/-- The content-column resolution of `processRiskCSV`: exact trimmed match
against `content` or `内容`, else containment of `内容`, else of `content`. -/
def riskContentKey (fields : List String) : Option String :=
  match fields.find? (fun f => jsTrimStr f == "content" || jsTrimStr f == "内容") with
  | some k => some k
  | none =>
    match findColumn fields "内容" with
    | some k => some k
    | none => findColumn fields "content"

/-- The risk-type-column resolution of `processRiskCSV`: exact trimmed match
against the fully-qualified name, else containment of `一级风险类型`. -/
def riskTypeKey (fields : List String) : Option String :=
  match fields.find? (fun f => jsTrimStr f == "文心安全算子V2-一级风险类型") with
  | some k => some k
  | none => findColumn fields "一级风险类型"

/-- One iteration of the `rows.forEach((row, index))` loop of
`processRiskCSV`: falsy score cell or NaN parse drops the row; otherwise a
`RiskAnalysisRow` is built (content falls back to the raw cell when the
normalized form is empty; risk type falls back to `N/A`). -/
def rowToRisk (ck tk : Option String) (scoreKey : String) (idx : Nat) (row : Row) :
    Option RiskAnalysisRow :=
  let scoreRaw := jsGetD row scoreKey
  if scoreRaw == "" then none
  else
    match jsParseFloat scoreRaw with
    | none => none
    | some score =>
      let rawContent :=
        match ck with
        | some k => jsGetD row k
        | none => ""
      let normalized := normalizeContent rawContent
      some
        { id := idx
          content := if normalized == "" then rawContent else normalized
          riskScore := score
          riskType :=
            match tk with
            | some k => jsGetD row k
            | none => "N/A"
          nid := none
          originalRow := row }

/-- The whole `rows.forEach` loop of `processRiskCSV`, threading the index. -/
def riskRowsAux (ck tk : Option String) (scoreKey : String) (idx : Nat) :
    List Row → List RiskAnalysisRow
  | [] => []
  | row :: rest =>
    match rowToRisk ck tk scoreKey idx row with
    | some r => r :: riskRowsAux ck tk scoreKey (idx + 1) rest
    | none => riskRowsAux ck tk scoreKey (idx + 1) rest

/-- Extraction of risk rows from one parsed table, given the score column. -/
def riskRows (t : RawTable) (scoreKey : String) : List RiskAnalysisRow :=
  riskRowsAux (riskContentKey t.fields) (riskTypeKey t.fields) scoreKey 0 t.rows

/-- One attempt of `processRiskCSV` on a decoded table: find the score column
or reject, with the error carrying the headers that were found. -/
def attemptRisk (t : RawTable) : Except RiskError (List RiskAnalysisRow) :=
  match findScoreKey t.fields with
  | some k => .ok (riskRows t k)
  | none => .error (.scoreColumnNotFound t.fields)

/-- `processRiskCSV` from src/utils/processor.ts: decode with GBK; if no
header passes `isColumnFound`, re-decode the same buffer as UTF-8 and use
that parse result for everything that follows, including the failure path. -/
def processRiskCSV (b : FileBuffer) : Except RiskError (List RiskAnalysisRow) :=
  match findScoreKey b.gbk.fields with
  | some k => .ok (riskRows b.gbk k)
  | none => attemptRisk b.utf8

/-- Re-indexing of one file's rows starting at the running counter value
(the `globalIdCounter++` of `handleFilesSelect` in RiskAnalyzer.tsx). -/
def reindexFrom (n : Nat) : List RiskAnalysisRow → List RiskAnalysisRow
  | [] => []
  | r :: rest => { r with id := n } :: reindexFrom (n + 1) rest

/-- The `results.flatMap` of `handleFilesSelect`, threading the counter. -/
def mergeFilesAux (counter : Nat) : List (List RiskAnalysisRow) → List RiskAnalysisRow
  | [] => []
  | file :: rest => reindexFrom counter file ++ mergeFilesAux (counter + file.length) rest

/-- The multi-file merge of `handleFilesSelect`: concatenate the per-file
results and assign fresh sequential ids from 0. -/
def mergeFiles (results : List (List RiskAnalysisRow)) : List RiskAnalysisRow :=
  mergeFilesAux 0 results

/-- A row with its id erased (used to state that a merge changes nothing but
the id). -/
def eraseId (r : RiskAnalysisRow) : RiskAnalysisRow :=
  { r with id := 0 }

/-- `Map.get` on the source mapping (an association list with unique keys). -/
def mapLookup (m : List (String × String)) (k : String) : Option String :=
  (m.find? (fun p => p.1 == k)).map (fun p => p.2)

/-- One row of the NID join of `handleSourceFileSelect`:
`nid ? { ...row, nid } : row` — only a truthy (non-empty) mapped value is
attached; otherwise the row is returned unchanged. -/
def joinRow (m : List (String × String)) (row : RiskAnalysisRow) : RiskAnalysisRow :=
  match mapLookup m row.content with
  | some nid => if nid == "" then row else { row with nid := some nid }
  | none => row

/-- The `prevData.map` of the NID join. -/
def joinMapping (m : List (String × String)) (rows : List RiskAnalysisRow) :
    List RiskAnalysisRow :=
  rows.map (joinRow m)

/-- JavaScript truthiness of `r.nid` (`undefined` and `""` are falsy). -/
def nidTruthy (r : RiskAnalysisRow) : Bool :=
  match r.nid with
  | some s => !(s == "")
  | none => false

/-- The `matchedCount > 0` test that flips the caller-visible `hasSourceData`
flag after a join. -/
def joinActivated (m : List (String × String)) (rows : List RiskAnalysisRow) : Bool :=
  ((joinMapping m rows).filter nidTruthy).length != 0

/-- JavaScript `Array.prototype.join`. -/
def jsJoin (sep : String) : List String → String
  | [] => ""
  | [x] => x
  | x :: y :: t => x ++ sep ++ jsJoin sep (y :: t)

/-- `formatFileContent` from src/utils/processor.ts: the fixed header line,
a newline, then the rows rendered as `strategy TAB content` joined by
newlines — the values are interpolated verbatim. -/
def formatFileContent (data : List ProcessedRow) : String :=
  "strategy\tcontent" ++ "\n" ++
    jsJoin "\n" (data.map (fun row => row.strategy ++ "\t" ++ row.content))

/-- Decomposition of a character stream into newline-separated lines (the
inverse of joining with a newline, used to state the formatter's shape). -/
def splitLines : List Char → List (List Char)
  | [] => [[]]
  | c :: t =>
    if c == '\n' then [] :: splitLines t
    else
      match splitLines t with
      | [] => [[c]]
      | l :: ls => (c :: l) :: ls

/-! ### Lemmas about trimming, whitespace collapsing and the prefix strip -/

theorem dropWhile_head_false {α : Type} (p : α → Bool) :
    ∀ (l : List α) (c : α) (t : List α), l.dropWhile p = c :: t → p c = false := by
  intro l
  induction l with
  | nil => intro c t h; simp [List.dropWhile] at h
  | cons a l ih =>
    intro c t h
    rw [List.dropWhile_cons] at h
    by_cases hpa : p a = true
    · rw [if_pos hpa] at h
      exact ih c t h
    · rw [if_neg hpa] at h
      cases h
      simpa using hpa

theorem jsTrim_drop_eq_self (l : List Char) :
    (jsTrim l).dropWhile jsWS = jsTrim l := by
  unfold jsTrim
  cases hm : List.rdropWhile jsWS (l.dropWhile jsWS) with
  | nil => simp
  | cons c m =>
    have hc : jsWS c = false := by
      obtain ⟨t, ht⟩ := List.rdropWhile_prefix jsWS (l.dropWhile jsWS)
      apply dropWhile_head_false jsWS l c (m ++ t)
      rw [← ht, hm, List.cons_append]
    rw [List.dropWhile_cons, if_neg (by simp [hc])]

theorem jsTrim_idem (l : List Char) : jsTrim (jsTrim l) = jsTrim l := by
  show List.rdropWhile jsWS ((jsTrim l).dropWhile jsWS) = jsTrim l
  rw [jsTrim_drop_eq_self]
  show List.rdropWhile jsWS (List.rdropWhile jsWS (l.dropWhile jsWS)) = jsTrim l
  rw [List.rdropWhile_idempotent]
  rfl

theorem mem_of_mem_dropWhile {α : Type} (p : α → Bool) :
    ∀ (l : List α) (c : α), c ∈ l.dropWhile p → c ∈ l := by
  intro l
  induction l with
  | nil => intro c h; simp [List.dropWhile] at h
  | cons a t ih =>
    intro c h
    rw [List.dropWhile_cons] at h
    by_cases hpa : p a = true
    · rw [if_pos hpa] at h
      exact List.mem_cons_of_mem a (ih c h)
    · rw [if_neg hpa] at h
      exact h

theorem mem_of_mem_jsTrim (l : List Char) (c : Char) (h : c ∈ jsTrim l) : c ∈ l := by
  unfold jsTrim List.rdropWhile at h
  rw [List.mem_reverse] at h
  have h2 := mem_of_mem_dropWhile jsWS _ c h
  rw [List.mem_reverse] at h2
  exact mem_of_mem_dropWhile jsWS l c h2

theorem collapseAux_no_tnr :
    ∀ (l : List Char) (b : Bool) (c : Char), c ∈ collapseAux b l → isTNR c = false := by
  intro l
  induction l with
  | nil => intro b c h; simp [collapseAux] at h
  | cons a t ih =>
    intro b c h
    simp only [collapseAux] at h
    by_cases ha : isTNR a = true
    · rw [if_pos ha] at h
      cases b with
      | true =>
        rw [if_pos rfl] at h
        exact ih true c h
      | false =>
        rw [if_neg (by simp)] at h
        rcases List.mem_cons.mp h with hc | hc
        · subst hc; decide
        · exact ih true c hc
    · rw [if_neg ha] at h
      rcases List.mem_cons.mp h with hc | hc
      · subst hc; simpa using ha
      · exact ih false c hc

theorem collapseAux_id :
    ∀ (l : List Char), (∀ c ∈ l, isTNR c = false) → collapseAux false l = l := by
  intro l
  induction l with
  | nil => intro _; rfl
  | cons a t ih =>
    intro h
    have ha : isTNR a = false := h a (List.mem_cons_self a t)
    simp only [collapseAux]
    rw [if_neg (by simp [ha]), ih (fun c hc => h c (List.mem_cons_of_mem a hc))]

theorem normalizeContent_empty : normalizeContent "" = "" := rfl

theorem normalizeContent_eq (x : String) (hx : x ≠ "") :
    normalizeContent x = ⟨jsTrim (collapseWs (stripPfx (jsTrim x.data)))⟩ := by
  rw [normalizeContent, if_neg hx]

/-- C2 (counterexample): `normalize` is not idempotent on an input containing
the prefix twice — the first application strips only the outer occurrence,
the second application strips again. -/
theorem normalizeContent_not_idem :
    normalizeContent (normalizeContent "用户评价文本用户评价文本a") ≠
      normalizeContent "用户评价文本用户评价文本a" := by
  decide

/-- C2 (amended): `normalize(normalize(x)) == normalize(x)` holds for every
input `x` whose normalized form does not itself start with the literal
`用户评价文本` prefix — in particular for every input containing the prefix
zero or one time; it fails for inputs carrying the prefix twice, where the
second application strips the remaining occurrence. -/
theorem normalizeContent_idem (x : String)
    (h : pfxChars.isPrefixOf (normalizeContent x).data = false) :
    normalizeContent (normalizeContent x) = normalizeContent x := by
  by_cases hy : normalizeContent x = ""
  · rw [hy, normalizeContent_empty]
  · have hx : x ≠ "" := by
      intro hx0
      apply hy
      rw [hx0, normalizeContent_empty]
    rw [normalizeContent_eq x hx] at h hy ⊢
    rw [normalizeContent_eq _ hy]
    set m := jsTrim (collapseWs (stripPfx (jsTrim x.data))) with hm
    have t1 : jsTrim m = m := by
      rw [hm]
      exact jsTrim_idem _
    have t2 : stripPfx m = m := by
      rw [stripPfx, if_neg]
      have h2 : pfxChars.isPrefixOf m = false := h
      simp [h2]
    have t3 : collapseWs m = m := by
      apply collapseAux_id
      intro c hc
      have hc2 : c ∈ collapseWs (stripPfx (jsTrim x.data)) := by
        apply mem_of_mem_jsTrim _ c
        rw [← hm]
        exact hc
      exact collapseAux_no_tnr _ false c hc2
    have hdata : (⟨m⟩ : String).data = m := rfl
    have hs : jsTrim (collapseWs (stripPfx (jsTrim m))) = m := by
      rw [t1, t2, t3, t1]
    calc (⟨jsTrim (collapseWs (stripPfx (jsTrim (⟨m⟩ : String).data)))⟩ : String)
        = ⟨jsTrim (collapseWs (stripPfx (jsTrim m)))⟩ := by rw [hdata]
      _ = ⟨m⟩ := by rw [hs]

/-- C2 (witness): the amended idempotence applied to a concrete input
containing the prefix once. -/
theorem normalizeContent_idem_witness :
    normalizeContent (normalizeContent "用户评价文本：你好 世界") =
      normalizeContent "用户评价文本：你好 世界" :=
  normalizeContent_idem "用户评价文本：你好 世界" (by decide)

/-- C1 (counterexample): a buffer whose GBK decode has no content header but
whose UTF-8 decode does; `processCSV` nevertheless rejects with the
column-not-found error — the encoding fallback does not exist in the general
content pipeline. -/
theorem processCSV_no_fallback :
    findContentKey (FileBuffer.mk ⟨["乱码"], []⟩ ⟨["content"], [[("content", "hello")]]⟩).gbk.fields = none ∧
    findContentKey (FileBuffer.mk ⟨["乱码"], []⟩ ⟨["content"], [[("content", "hello")]]⟩).utf8.fields = some "content" ∧
    processCSV (FileBuffer.mk ⟨["乱码"], []⟩ ⟨["content"], [[("content", "hello")]]⟩) =
      Except.error ProcError.contentColumnNotFound := by
  decide

/-- C1 (amended): `processCSV` consults only the primary (GBK) decode of the
buffer: its result is independent of the UTF-8 decode, and when the GBK
headers lack a content column it fails with the column-not-found error no
matter what the UTF-8 decode of the same buffer contains.  The UTF-8 retry
exists only in `processRiskCSV` and `processSourceMapping`. -/
theorem processCSV_gbk_only (g u u' : RawTable) :
    processCSV ⟨g, u⟩ = processCSV ⟨g, u'⟩ ∧
    (findContentKey g.fields = none →
      processCSV ⟨g, u⟩ = Except.error ProcError.contentColumnNotFound) := by
  refine ⟨rfl, fun h => ?_⟩
  show processCSVTable g = _
  unfold processCSVTable
  rw [h]

/-- C1 (witness): the amended statement applied to a concrete buffer. -/
theorem processCSV_gbk_only_witness :
    processCSV ⟨⟨["乱码"], []⟩, ⟨["content"], []⟩⟩ =
      Except.error ProcError.contentColumnNotFound :=
  (processCSV_gbk_only ⟨["乱码"], []⟩ ⟨["content"], []⟩ ⟨[], []⟩).2 (by decide)

/-- Unfolding of the row loop when the current row is emitted. -/
theorem extractRows_cons_push (key : String) (seen : List String) (row : Row) (rest : List Row)
    (h1 : optTruthy (jsGet row key) = true)
    (h2 : (!((normalizeContent ((jsGet row key).getD "")) == "") &&
           !(seen.contains (normalizeContent ((jsGet row key).getD "")))) = true) :
    extractRows key seen (row :: rest) =
      ⟨⟨"service_safe_cate_v2", normalizeContent ((jsGet row key).getD "")⟩ ::
          (extractRows key (normalizeContent ((jsGet row key).getD "") :: seen) rest).data,
        (extractRows key (normalizeContent ((jsGet row key).getD "") :: seen) rest).valid + 1,
        (extractRows key (normalizeContent ((jsGet row key).getD "") :: seen) rest).skipped⟩ := by
  simp only [extractRows]
  rw [if_pos h1, if_pos h2]

/-- Unfolding of the row loop when the current row is skipped. -/
theorem extractRows_cons_skip (key : String) (seen : List String) (row : Row) (rest : List Row)
    (h : ¬ (optTruthy (jsGet row key) = true ∧
            (!((normalizeContent ((jsGet row key).getD "")) == "") &&
             !(seen.contains (normalizeContent ((jsGet row key).getD "")))) = true)) :
    extractRows key seen (row :: rest) =
      ⟨(extractRows key seen rest).data, (extractRows key seen rest).valid,
        (extractRows key seen rest).skipped + 1⟩ := by
  simp only [extractRows]
  by_cases h1 : optTruthy (jsGet row key) = true
  · rw [if_pos h1, if_neg (fun h2 => h ⟨h1, h2⟩)]
  · rw [if_neg h1]

/-- The loop invariant of `processCSV`'s row loop: the counters add up to the
number of processed rows, the valid counter counts the emitted rows, the
emitted normalized contents are pairwise distinct and none of them was
already in the seen-set. -/
theorem extractRows_invariant (key : String) :
    ∀ (rows : List Row) (seen : List String),
      (extractRows key seen rows).valid + (extractRows key seen rows).skipped = rows.length ∧
      (extractRows key seen rows).valid = (extractRows key seen rows).data.length ∧
      ((extractRows key seen rows).data.map (fun r => r.content)).Nodup ∧
      (∀ c ∈ (extractRows key seen rows).data.map (fun r => r.content),
        seen.contains c = false) := by
  intro rows
  induction rows with
  | nil =>
    intro seen
    refine ⟨rfl, rfl, List.nodup_nil, ?_⟩
    intro c hc
    simp [extractRows] at hc
  | cons row rest ih =>
    intro seen
    by_cases h1 : optTruthy (jsGet row key) = true
    · by_cases h2 : (!((normalizeContent ((jsGet row key).getD "")) == "") &&
          !(seen.contains (normalizeContent ((jsGet row key).getD "")))) = true
      · rw [extractRows_cons_push key seen row rest h1 h2]
        obtain ⟨ha, hb, hc, hd⟩ := ih (normalizeContent ((jsGet row key).getD "") :: seen)
        have h2a : (normalizeContent ((jsGet row key).getD "") == "") = false := by
          rcases Bool.and_eq_true _ _ |>.mp h2 with ⟨hx, _⟩
          simpa using hx
        have h2b : seen.contains (normalizeContent ((jsGet row key).getD "")) = false := by
          rcases Bool.and_eq_true _ _ |>.mp h2 with ⟨_, hx⟩
          simpa using hx
        refine ⟨?_, ?_, ?_, ?_⟩
        · show (extractRows key _ rest).valid + 1 + (extractRows key _ rest).skipped = rest.length + 1
          omega
        · show (extractRows key _ rest).valid + 1 = (extractRows key _ rest).data.length + 1
          omega
        · show (normalizeContent ((jsGet row key).getD "") ::
              (extractRows key _ rest).data.map (fun r => r.content)).Nodup
          rw [List.nodup_cons]
          refine ⟨?_, hc⟩
          intro hmem
          have := hd _ hmem
          simp [List.contains_cons] at this
        · intro c hcmem
          rcases List.mem_cons.mp hcmem with hcc | hcc
          · rw [hcc]
            exact h2b
          · have := hd c hcc
            simp only [List.contains_cons, Bool.or_eq_false_iff] at this
            exact this.2
      · rw [extractRows_cons_skip key seen row rest (fun hh => h2 hh.2)]
        obtain ⟨ha, hb, hc, hd⟩ := ih seen
        exact ⟨by show (extractRows key seen rest).valid + ((extractRows key seen rest).skipped + 1) = rest.length + 1; omega, hb, hc, hd⟩
    · rw [extractRows_cons_skip key seen row rest (fun hh => h1 hh.1)]
      obtain ⟨ha, hb, hc, hd⟩ := ih seen
      exact ⟨by show (extractRows key seen rest).valid + ((extractRows key seen rest).skipped + 1) = rest.length + 1; omega, hb, hc, hd⟩

/-- C3: when the content column is located, `processCSV`'s table processing
succeeds with `validRows + skippedRows = totalRows`, `totalRows` the parsed
row count, `validRows` the number of emitted rows, and no two emitted
`ProcessedRow.content` values equal. -/
theorem processCSVTable_stats (t : RawTable) (key : String)
    (h : findContentKey t.fields = some key) :
    processCSVTable t = Except.ok ((extractRows key [] t.rows).data,
      ⟨t.rows.length, (extractRows key [] t.rows).valid,
        (extractRows key [] t.rows).skipped⟩) ∧
    (extractRows key [] t.rows).valid + (extractRows key [] t.rows).skipped =
      t.rows.length ∧
    (extractRows key [] t.rows).valid = (extractRows key [] t.rows).data.length ∧
    ((extractRows key [] t.rows).data.map (fun r => r.content)).Nodup := by
  obtain ⟨ha, hb, hc, _⟩ := extractRows_invariant key t.rows []
  refine ⟨?_, ha, hb, hc⟩
  unfold processCSVTable
  rw [h]

/-- C3 (witness): the statement applied to a concrete two-row table whose
second row duplicates the first. -/
theorem processCSVTable_stats_witness :
    processCSVTable ⟨["content"], [[("content", "hi")], [("content", "hi")]]⟩ =
      Except.ok ((extractRows "content" []
          [[("content", "hi")], [("content", "hi")]]).data,
        ⟨2, (extractRows "content" [] [[("content", "hi")], [("content", "hi")]]).valid,
          (extractRows "content" [] [[("content", "hi")], [("content", "hi")]]).skipped⟩) :=
  (processCSVTable_stats ⟨["content"], [[("content", "hi")], [("content", "hi")]]⟩
    "content" (by decide)).1

/-! ### Lemmas about the risk extraction loop -/

theorem rowToRisk_some (ck tk : Option String) (k : String) (idx : Nat) (row : Row)
    (r : RiskAnalysisRow) (h : rowToRisk ck tk k idx row = some r) :
    r.id = idx ∧ r.originalRow = row ∧ jsGetD row k ≠ "" ∧
    jsParseFloat (jsGetD row k) = some r.riskScore := by
  simp only [rowToRisk] at h
  by_cases h1 : jsGetD row k = ""
  · rw [if_pos (by simp [h1])] at h
    exact absurd h (by simp)
  · rw [if_neg (by simp [h1])] at h
    cases hp : jsParseFloat (jsGetD row k) with
    | none =>
      rw [hp] at h
      exact absurd h (by simp)
    | some score =>
      rw [hp] at h
      have hr := Option.some.inj h
      subst hr
      refine ⟨rfl, rfl, h1, ?_⟩
      rw [← hp]

theorem rowToRisk_isSome (ck tk : Option String) (k : String) (idx : Nat) (row : Row) :
    (rowToRisk ck tk k idx row).isSome = true ↔
      (jsGetD row k ≠ "" ∧ (jsParseFloat (jsGetD row k)).isSome = true) := by
  simp only [rowToRisk]
  by_cases h1 : jsGetD row k = ""
  · rw [if_pos (by simp [h1])]
    simp [h1]
  · rw [if_neg (by simp [h1])]
    cases hp : jsParseFloat (jsGetD row k) with
    | none => simp [h1]
    | some v => simp [h1]

theorem rowToRisk_content_empty (tk : Option String) (k : String) (idx : Nat) (row : Row)
    (r : RiskAnalysisRow) (h : rowToRisk none tk k idx row = some r) :
    r.content = "" := by
  simp only [rowToRisk] at h
  by_cases h1 : jsGetD row k = ""
  · rw [if_pos (by simp [h1])] at h
    exact absurd h (by simp)
  · rw [if_neg (by simp [h1])] at h
    cases hp : jsParseFloat (jsGetD row k) with
    | none =>
      rw [hp] at h
      exact absurd h (by simp)
    | some v =>
      rw [hp] at h
      have hr := Option.some.inj h
      subst hr
      rfl

theorem riskRowsAux_mem (ck tk : Option String) (k : String) :
    ∀ (rows : List Row) (i0 : Nat) (r : RiskAnalysisRow),
      r ∈ riskRowsAux ck tk k i0 rows →
      ∃ j row, rows.get? j = some row ∧ rowToRisk ck tk k (i0 + j) row = some r := by
  intro rows
  induction rows with
  | nil =>
    intro i0 r h
    simp [riskRowsAux] at h
  | cons row rest ih =>
    intro i0 r h
    simp only [riskRowsAux] at h
    cases hm : rowToRisk ck tk k i0 row with
    | some r0 =>
      rw [hm] at h
      rcases List.mem_cons.mp h with hc | hc
      · exact ⟨0, row, rfl, by rw [Nat.add_zero, hm, hc]⟩
      · obtain ⟨j, row', hg, hr⟩ := ih (i0 + 1) r hc
        exact ⟨j + 1, row', by simpa using hg,
          by rw [show i0 + (j + 1) = i0 + 1 + j by omega]; exact hr⟩
    | none =>
      rw [hm] at h
      obtain ⟨j, row', hg, hr⟩ := ih (i0 + 1) r h
      exact ⟨j + 1, row', by simpa using hg,
        by rw [show i0 + (j + 1) = i0 + 1 + j by omega]; exact hr⟩

theorem riskRowsAux_exists (ck tk : Option String) (k : String) :
    ∀ (rows : List Row) (i0 j : Nat) (row : Row) (r : RiskAnalysisRow),
      rows.get? j = some row → rowToRisk ck tk k (i0 + j) row = some r →
      r ∈ riskRowsAux ck tk k i0 rows := by
  intro rows
  induction rows with
  | nil =>
    intro i0 j row r hg _
    simp at hg
  | cons row0 rest ih =>
    intro i0 j row r hg hr
    cases j with
    | zero =>
      have hrow : row0 = row := by simpa using hg
      subst hrow
      rw [Nat.add_zero] at hr
      simp only [riskRowsAux]
      rw [hr]
      exact List.mem_cons_self _ _
    | succ j' =>
      have hg' : rest.get? j' = some row := by simpa using hg
      have hr' : rowToRisk ck tk k (i0 + 1 + j') row = some r := by
        rw [show i0 + 1 + j' = i0 + (j' + 1) by omega]
        exact hr
      have hmem := ih (i0 + 1) j' row r hg' hr'
      simp only [riskRowsAux]
      cases hm : rowToRisk ck tk k i0 row0 with
      | some r0 => exact List.mem_cons_of_mem _ hmem
      | none => exact hmem

/-- C4 (counterexample): a score cell `-1` is retained with a negative
`riskScore` — the extractor does not enforce non-negativity. -/
theorem riskScore_negative :
    processRiskCSV ⟨⟨["Risk Score"], [[("Risk Score", "-1")]]⟩, ⟨[], []⟩⟩ =
      Except.ok [⟨0, "", JSNum.fin (mkRat (-1) 1), "N/A", none, [("Risk Score", "-1")]⟩] ∧
    (mkRat (-1) 1 : ℚ) < 0 := by
  constructor
  · decide
  · rw [Rat.mkRat_eq_div]
    norm_num

/-- C4 (amended): every row emitted by the risk extractor carries a
`riskScore` equal to the non-NaN `parseFloat` value of its own non-empty
score cell (which may be negative or infinite); a row whose score cell is
empty or parses to NaN contributes no output row at its index — it is
dropped entirely, never retained with a sentinel value. -/
theorem riskRows_score_parsed (t : RawTable) (k : String) :
    (∀ r ∈ riskRows t k, jsGetD r.originalRow k ≠ "" ∧
        jsParseFloat (jsGetD r.originalRow k) = some r.riskScore) ∧
    (∀ idx row, t.rows.get? idx = some row →
        (jsGetD row k = "" ∨ jsParseFloat (jsGetD row k) = none) →
        ∀ r ∈ riskRows t k, r.id ≠ idx) := by
  constructor
  · intro r hr
    obtain ⟨j, row, hg, hrow⟩ := riskRowsAux_mem _ _ k t.rows 0 r hr
    obtain ⟨hid, horig, hne, hp⟩ := rowToRisk_some _ _ k (0 + j) row r hrow
    rw [horig]
    exact ⟨hne, hp⟩
  · intro idx row hg hbad r hr hid
    obtain ⟨j, row', hg', hrow⟩ := riskRowsAux_mem _ _ k t.rows 0 r hr
    obtain ⟨hid', horig, hne, hp⟩ := rowToRisk_some _ _ k (0 + j) row' r hrow
    have hj : j = idx := by omega
    subst hj
    have hrow2 : row' = row := by
      rw [hg'] at hg
      exact Option.some.inj hg
    subst hrow2
    rcases hbad with hb | hb
    · exact hne hb
    · rw [hb] at hp
      exact Option.noConfusion hp

/-- C4 (witness): the amended statement applied to the single emitted row of
a concrete one-row table. -/
theorem riskRows_score_parsed_witness :
    jsGetD ((⟨0, "", JSNum.fin (mkRat 2 1), "N/A", none,
        [("Risk Score", "2")]⟩ : RiskAnalysisRow)).originalRow "Risk Score" ≠ "" ∧
    jsParseFloat (jsGetD ((⟨0, "", JSNum.fin (mkRat 2 1), "N/A", none,
        [("Risk Score", "2")]⟩ : RiskAnalysisRow)).originalRow "Risk Score") =
      some ((⟨0, "", JSNum.fin (mkRat 2 1), "N/A", none,
        [("Risk Score", "2")]⟩ : RiskAnalysisRow)).riskScore :=
  (riskRows_score_parsed ⟨["Risk Score"], [[("Risk Score", "2")]]⟩ "Risk Score").1
    _ (by decide)

/-- C8: when the primary (GBK) decode yields no header passing the
score-column predicate, `processRiskCSV` switches to the UTF-8 decode of the
same buffer and commits to it — there is no third attempt: it succeeds on
the UTF-8 table when that has a score column, and otherwise rejects with the
error that enumerates the headers found in the second (UTF-8) attempt. -/
theorem processRiskCSV_fallback (b : FileBuffer)
    (h : findScoreKey b.gbk.fields = none) :
    processRiskCSV b = attemptRisk b.utf8 ∧
    (∀ k, findScoreKey b.utf8.fields = some k →
      processRiskCSV b = Except.ok (riskRows b.utf8 k)) ∧
    (findScoreKey b.utf8.fields = none →
      processRiskCSV b = Except.error (RiskError.scoreColumnNotFound b.utf8.fields)) := by
  have h0 : processRiskCSV b = attemptRisk b.utf8 := by
    unfold processRiskCSV
    rw [h]
  refine ⟨h0, ?_, ?_⟩
  · intro k hk
    rw [h0]
    unfold attemptRisk
    rw [hk]
  · intro hn
    rw [h0]
    unfold attemptRisk
    rw [hn]

/-- C8 (witness): the fallback statement applied to a concrete buffer whose
GBK decode lacks the score column and whose UTF-8 decode has it. -/
theorem processRiskCSV_fallback_witness :
    processRiskCSV ⟨⟨["乱"], []⟩, ⟨["Risk Score"], []⟩⟩ =
      Except.ok (riskRows ⟨["Risk Score"], []⟩ "Risk Score") :=
  (processRiskCSV_fallback ⟨⟨["乱"], []⟩, ⟨["Risk Score"], []⟩⟩ (by decide)).2.1
    "Risk Score" (by decide)

/-- C9: a row of the risk table is retained exactly when its score cell is
non-empty and `parseFloat` of the whole cell is non-NaN; `parseFloat` takes
the longest numeric prefix, so the impure cell `1.5abc` parses to
`3/2 = 1.5` and such rows are retained. -/
theorem riskRows_keeps_numeric (t : RawTable) (k : String) :
    jsParseFloat "1.5abc" = some (JSNum.fin (mkRat 3 2)) ∧
    (mkRat 3 2 : ℚ) = 3 / 2 ∧
    (∀ idx row, t.rows.get? idx = some row →
      ((∃ r ∈ riskRows t k, r.id = idx) ↔
        (jsGetD row k ≠ "" ∧ (jsParseFloat (jsGetD row k)).isSome = true))) := by
  refine ⟨by decide, by rw [Rat.mkRat_eq_div]; norm_num, ?_⟩
  intro idx row hg
  constructor
  · rintro ⟨r, hr, hid⟩
    obtain ⟨j, row', hg', hrow⟩ := riskRowsAux_mem _ _ k t.rows 0 r hr
    obtain ⟨hid', horig, hne, hp⟩ := rowToRisk_some _ _ k (0 + j) row' r hrow
    have hj : j = idx := by omega
    subst hj
    have hrow2 : row' = row := by
      rw [hg'] at hg
      exact Option.some.inj hg
    subst hrow2
    refine ⟨hne, ?_⟩
    rw [hp]
    rfl
  · rintro ⟨hne, hs⟩
    have hsome : (rowToRisk (riskContentKey t.fields) (riskTypeKey t.fields) k
        (0 + idx) row).isSome = true := by
      rw [rowToRisk_isSome]
      exact ⟨hne, hs⟩
    obtain ⟨r, hr⟩ := Option.isSome_iff_exists.mp hsome
    refine ⟨r, riskRowsAux_exists _ _ k t.rows 0 idx row r hg hr, ?_⟩
    obtain ⟨hid, _, _, _⟩ := rowToRisk_some _ _ k (0 + idx) row r hr
    omega

/-- C9 (witness): the retention rule applied to a concrete one-row table
whose score cell is the impure string `1.5abc`. -/
theorem riskRows_keeps_numeric_witness :
    jsGetD [("Risk Score", "1.5abc")] "Risk Score" ≠ "" ∧
    (jsParseFloat (jsGetD [("Risk Score", "1.5abc")] "Risk Score")).isSome = true :=
  ((riskRows_keeps_numeric ⟨["Risk Score"], [[("Risk Score", "1.5abc")]]⟩
      "Risk Score").2.2 0 [("Risk Score", "1.5abc")] (by decide)).mp
    ⟨⟨0, "", JSNum.fin (mkRat 3 2), "N/A", none, [("Risk Score", "1.5abc")]⟩,
      by decide, by decide⟩

/-- C10: when the primary decode has a score column but no header matches any
of the content-column rules, risk processing still succeeds — it does not
reject — and every emitted row carries the empty string as its content. -/
theorem processRiskCSV_no_content_col (b : FileBuffer) (k : String)
    (hk : findScoreKey b.gbk.fields = some k)
    (hc : riskContentKey b.gbk.fields = none) :
    processRiskCSV b = Except.ok (riskRows b.gbk k) ∧
    ∀ r ∈ riskRows b.gbk k, r.content = "" := by
  constructor
  · unfold processRiskCSV
    rw [hk]
  · intro r hr
    unfold riskRows at hr
    rw [hc] at hr
    obtain ⟨j, row, hg, hrow⟩ := riskRowsAux_mem none _ k b.gbk.rows 0 r hr
    exact rowToRisk_content_empty _ k (0 + j) row r hrow

/-- C10 (witness): the statement applied to a concrete table having only a
score column. -/
theorem processRiskCSV_no_content_col_witness :
    processRiskCSV ⟨⟨["Risk Score"], [[("Risk Score", "1")]]⟩,
        ⟨["Risk Score"], [[("Risk Score", "1")]]⟩⟩ =
      Except.ok (riskRows ⟨["Risk Score"], [[("Risk Score", "1")]]⟩ "Risk Score") :=
  (processRiskCSV_no_content_col
    ⟨⟨["Risk Score"], [[("Risk Score", "1")]]⟩, ⟨["Risk Score"], [[("Risk Score", "1")]]⟩⟩
    "Risk Score" (by decide) (by decide)).1

/-! ### Lemmas about merging, formatting and joining -/

theorem reindexFrom_map_id : ∀ (l : List RiskAnalysisRow) (n : Nat),
    (reindexFrom n l).map (fun r => r.id) = List.range' n l.length := by
  intro l
  induction l with
  | nil => intro n; rfl
  | cons r t ih =>
    intro n
    simp only [reindexFrom, List.map_cons, List.length_cons, ih]
    rw [List.range'_succ]

theorem reindexFrom_map_erase : ∀ (l : List RiskAnalysisRow) (n : Nat),
    (reindexFrom n l).map eraseId = l.map eraseId := by
  intro l
  induction l with
  | nil => intro n; rfl
  | cons r t ih =>
    intro n
    simp only [reindexFrom, List.map_cons, ih]
    rfl

theorem reindexFrom_length : ∀ (l : List RiskAnalysisRow) (n : Nat),
    (reindexFrom n l).length = l.length := by
  intro l
  induction l with
  | nil => intro n; rfl
  | cons r t ih =>
    intro n
    simp only [reindexFrom, List.length_cons, ih]

theorem reindexFrom_append : ∀ (a b : List RiskAnalysisRow) (n : Nat),
    reindexFrom n (a ++ b) = reindexFrom n a ++ reindexFrom (n + a.length) b := by
  intro a
  induction a with
  | nil => intro b n; rfl
  | cons r t ih =>
    intro b n
    simp only [List.cons_append, reindexFrom, List.append_eq, ih, List.length_cons]
    rw [show n + (t.length + 1) = n + 1 + t.length by omega]

theorem mergeFilesAux_eq : ∀ (results : List (List RiskAnalysisRow)) (n : Nat),
    mergeFilesAux n results = reindexFrom n results.flatten := by
  intro results
  induction results with
  | nil => intro n; rfl
  | cons file rest ih =>
    intro n
    show reindexFrom n file ++ mergeFilesAux (n + file.length) rest =
      reindexFrom n (file ++ rest.flatten)
    rw [reindexFrom_append, ih]

/-- C5: merging per-file extraction results concatenates the per-file row
sequences in order (all fields but the id preserved), reassigns the ids to
the dense sequence `0 .. total-1` (discarding every per-file id), and the
merged size is the sum of the per-file sizes. -/
theorem mergeFiles_spec (results : List (List RiskAnalysisRow)) :
    (mergeFiles results).map (fun r => r.id) =
      List.range ((results.map List.length).sum) ∧
    (mergeFiles results).map eraseId = results.flatten.map eraseId ∧
    (mergeFiles results).length = (results.map List.length).sum := by
  have hm : mergeFiles results = reindexFrom 0 results.flatten := mergeFilesAux_eq results 0
  have hlen : results.flatten.length = (results.map List.length).sum := by
    rw [List.length_flatten]
  refine ⟨?_, ?_, ?_⟩
  · rw [hm, reindexFrom_map_id, hlen, List.range_eq_range']
  · rw [hm, reindexFrom_map_erase]
  · rw [hm, reindexFrom_length, hlen]

theorem splitLines_single : ∀ (a : List Char), (∀ c ∈ a, c ≠ '\n') →
    splitLines a = [a] := by
  intro a
  induction a with
  | nil => intro _; rfl
  | cons c t ih =>
    intro h
    have hc : (c == '\n') = false := by simpa using h c (List.mem_cons_self c t)
    simp only [splitLines]
    rw [if_neg (by simp [hc]), ih (fun x hx => h x (List.mem_cons_of_mem c hx))]

theorem splitLines_append : ∀ (a b : List Char), (∀ c ∈ a, c ≠ '\n') →
    splitLines (a ++ '\n' :: b) = a :: splitLines b := by
  intro a
  induction a with
  | nil =>
    intro b _
    simp only [List.nil_append, splitLines]
    rw [if_pos (by simp)]
  | cons c t ih =>
    intro b h
    have hc : (c == '\n') = false := by simpa using h c (List.mem_cons_self c t)
    simp only [List.cons_append, List.append_eq, splitLines]
    rw [if_neg (by simp [hc]), ih b (fun x hx => h x (List.mem_cons_of_mem c hx))]

theorem jsJoin_data_cons (x y : String) (t : List String) :
    (jsJoin "\n" (x :: y :: t)).data = x.data ++ '\n' :: (jsJoin "\n" (y :: t)).data := by
  show (x ++ "\n" ++ jsJoin "\n" (y :: t)).data = _
  rw [String.data_append, String.data_append]
  simp

theorem splitLines_jsJoin : ∀ (l : List String), l ≠ [] →
    (∀ s ∈ l, ∀ c ∈ s.data, c ≠ '\n') →
    splitLines (jsJoin "\n" l).data = l.map String.data := by
  intro l
  induction l with
  | nil => intro h _; exact absurd rfl h
  | cons x t ih =>
    intro _ h
    cases t with
    | nil =>
      show splitLines x.data = [x.data]
      exact splitLines_single x.data (h x (List.mem_cons_self x []))
    | cons y t' =>
      rw [jsJoin_data_cons,
        splitLines_append _ _ (h x (List.mem_cons_self _ _)),
        ih (by simp) (fun s hs => h s (List.mem_cons_of_mem x hs))]
      rfl

/-- C6 (counterexample): a tab inside a content value passes through the
formatter verbatim — it is not replaced by a space before writing. -/
theorem formatFileContent_no_sanitize :
    formatFileContent [⟨"s", "a\tb"⟩] = "strategy\tcontent\ns\ta\tb" ∧
    formatFileContent [⟨"s", "a\tb"⟩] ≠ "strategy\tcontent\ns\ta b" := by
  constructor
  · decide
  · decide

/-- C6 (amended): the formatter emits one header line (`strategy` TAB
`content`) followed by one line per row, each line the strategy and the
content joined by a single tab, with both values written verbatim: no
residual tab, newline or carriage-return replacement is applied.  The line
decomposition shown requires only that the values contain no newline (tabs
and carriage returns pass through) and that the row list is non-empty. -/
theorem formatFileContent_lines (data : List ProcessedRow) (hne : data ≠ [])
    (h : ∀ r ∈ data, (∀ c ∈ r.strategy.data, c ≠ '\n') ∧
      (∀ c ∈ r.content.data, c ≠ '\n')) :
    splitLines (formatFileContent data).data =
      "strategy\tcontent".data ::
        data.map (fun r => (r.strategy ++ "\t" ++ r.content).data) := by
  have hdr : ∀ c ∈ "strategy\tcontent".data, c ≠ '\n' := by decide
  have hlines : ∀ s ∈ data.map (fun row => row.strategy ++ "\t" ++ row.content),
      ∀ c ∈ s.data, c ≠ '\n' := by
    intro s hs
    obtain ⟨r, hr, rfl⟩ := List.mem_map.mp hs
    intro c hc
    rw [String.data_append, String.data_append] at hc
    rcases List.mem_append.mp hc with hc2 | hc2
    · rcases List.mem_append.mp hc2 with hc3 | hc3
      · exact (h r hr).1 c hc3
      · have : c = '\t' := by simpa using hc3
        subst this
        decide
    · exact (h r hr).2 c hc2
  have hd : (formatFileContent data).data =
      "strategy\tcontent".data ++ '\n' ::
        (jsJoin "\n" (data.map (fun row => row.strategy ++ "\t" ++ row.content))).data := by
    show (("strategy\tcontent" ++ "\n") ++
        jsJoin "\n" (data.map (fun row => row.strategy ++ "\t" ++ row.content))).data = _
    rw [String.data_append, String.data_append]
    simp
  rw [hd, splitLines_append _ _ hdr,
    splitLines_jsJoin _ (by simpa using hne) hlines, List.map_map]
  rfl

/-- C6 (witness): the amended statement applied to a concrete one-row list. -/
theorem formatFileContent_lines_witness :
    splitLines (formatFileContent [⟨"s", "c"⟩]).data =
      "strategy\tcontent".data ::
        [(⟨"s", "c"⟩ : ProcessedRow)].map
          (fun r => (r.strategy ++ "\t" ++ r.content).data) :=
  formatFileContent_lines [⟨"s", "c"⟩] (by decide) (by decide)

/-- C7 (counterexample): a mapping key present with an empty-string value is
not attached — the join tests truthiness of the mapped value, not presence of
the key, so the row keeps `nid` unset although `mapping.get` succeeds. -/
theorem joinMapping_empty_value :
    mapLookup [("a", "")] "a" = some "" ∧
    joinMapping [("a", "")]
        [⟨0, "a", JSNum.fin (mkRat 0 1), "t", none, []⟩] =
      [⟨0, "a", JSNum.fin (mkRat 0 1), "t", none, []⟩] := by
  constructor
  · decide
  · decide

/-- C7 (amended): the join maps each row independently: the row at every
index is `joinRow` of the input row; `joinRow` attaches `nid := some v` and
changes nothing else when the mapping holds a non-empty value `v` for the
row's content, returns the row unchanged when the key is absent (and also
when the mapped value is the empty string), and never alters any other
field; the caller-visible linked flag becomes true exactly when some joined
row carries a truthy (present and non-empty) `nid`. -/
theorem joinMapping_spec (m : List (String × String)) (rows : List RiskAnalysisRow) :
    (∀ i row, rows.get? i = some row →
      (joinMapping m rows).get? i = some (joinRow m row)) ∧
    (∀ row v, mapLookup m row.content = some v → v ≠ "" →
      joinRow m row = { row with nid := some v }) ∧
    (∀ row, mapLookup m row.content = none → joinRow m row = row) ∧
    (∀ row, (joinRow m row).content = row.content ∧ (joinRow m row).id = row.id ∧
      (joinRow m row).riskScore = row.riskScore ∧
      (joinRow m row).riskType = row.riskType ∧
      (joinRow m row).originalRow = row.originalRow) ∧
    (joinActivated m rows = true ↔
      ∃ r ∈ joinMapping m rows, nidTruthy r = true) := by
  refine ⟨?_, ?_, ?_, ?_, ?_⟩
  · intro i row hg
    unfold joinMapping
    rw [List.get?_map, hg]
    rfl
  · intro row v hv hvne
    unfold joinRow
    rw [hv]
    dsimp only
    rw [if_neg (by simp [hvne])]
  · intro row hv
    unfold joinRow
    rw [hv]
  · intro row
    unfold joinRow
    cases hv : mapLookup m row.content with
    | none => exact ⟨rfl, rfl, rfl, rfl, rfl⟩
    | some v =>
      dsimp only
      by_cases hv0 : v = ""
      · rw [if_pos (by simp [hv0])]
        exact ⟨rfl, rfl, rfl, rfl, rfl⟩
      · rw [if_neg (by simp [hv0])]
        exact ⟨rfl, rfl, rfl, rfl, rfl⟩
  · unfold joinActivated
    constructor
    · intro h
      have hlen : ((joinMapping m rows).filter nidTruthy).length ≠ 0 := by
        simpa using h
      have hnil : (joinMapping m rows).filter nidTruthy ≠ [] := by
        intro h0
        rw [h0] at hlen
        exact hlen rfl
      obtain ⟨r, hr⟩ := List.exists_mem_of_ne_nil _ hnil
      have hm2 := List.mem_filter.mp hr
      exact ⟨r, hm2.1, hm2.2⟩
    · rintro ⟨r, hr, htr⟩
      have hmem : r ∈ (joinMapping m rows).filter nidTruthy :=
        List.mem_filter.mpr ⟨hr, htr⟩
      have hlen : ((joinMapping m rows).filter nidTruthy).length ≠ 0 := by
        intro h0
        rw [List.length_eq_zero] at h0
        rw [h0] at hmem
        simp at hmem
      simpa using hlen

/-- C7 (witness): `joinRow` applied to a concrete row matched by the mapping
with the non-empty external id `N1`. -/
theorem joinMapping_spec_witness :
    joinRow [("a", "N1")]
        (⟨0, "a", JSNum.fin (mkRat 0 1), "t", none, []⟩ : RiskAnalysisRow) =
      { (⟨0, "a", JSNum.fin (mkRat 0 1), "t", none, []⟩ : RiskAnalysisRow) with
          nid := some "N1" } :=
  (joinMapping_spec [("a", "N1")] []).2.1
    ⟨0, "a", JSNum.fin (mkRat 0 1), "t", none, []⟩ "N1" (by decide) (by decide)
